import Mathlib

/-!
Verification development for the portfolio backend (Django/DRF application
with `projects` and `pages` apps).  The definitions below are shallow
embeddings of the Python source:

* `dictGet`/`dictSet`/`dictUpdate`/`mergeDicts` embed Python `dict`
  lookup/`dict.update` and `ProjectSerializer._merge_dicts`
  (src/projects/serializers.py lines 151-158); the pages serializers use the
  same `current.update(incoming)` idiom.
* `getTitleResolved` embeds `ProjectSerializer.get_title_resolved`
  (src/projects/serializers.py lines 121-132); i18n mappings are modelled as
  insertion-ordered association lists with string values, matching Python
  dict semantics, and the request language is `Option String` (the empty
  query parameter is normalised to `None` by `_resolve_lang`).

`AboutImage`/`AboutSerializer` (src/pages) are textually identical to
`ProjectImage`/`ProjectSerializer` in every part embedded here, so a single
embedding covers both galleries.
-/

namespace Portfolio

/-- Python `d.get(k)` on an insertion-ordered dict represented as an
association list: the value of the first entry with key `k`. -/
def dictGet {α : Type} : List (String × α) → String → Option α
  | [], _ => none
  | (k', v) :: t, k => if k' = k then some v else dictGet t k

/-- Python `d[k] = v`: replace the value of the first entry with key `k`
in place (keeping its position), or append a new entry at the end. -/
def dictSet {α : Type} (l : List (String × α)) (k : String) (v : α) :
    List (String × α) :=
  match l with
  | [] => [(k, v)]
  | (k', v') :: t => if k' = k then (k, v) :: t else (k', v') :: dictSet t k v

/-- Python `base.update(upd)`: apply each entry of `upd` in order. -/
def dictUpdate {α : Type} (base upd : List (String × α)) : List (String × α) :=
  upd.foldl (fun acc p => dictSet acc p.1 p.2) base

/-- A JSON value that is either a language→value mapping or something else
(the defensive `isinstance(..., dict)` checks in the source distinguish
exactly these two cases). -/
inductive PyMaybeDict (α : Type) where
  | dict (entries : List (String × α))
  | nondict
  deriving DecidableEq, Repr

/-- Embedding of `ProjectSerializer._merge_dicts`
(src/projects/serializers.py lines 151-158): a non-dict original is replaced
by `{}`; a non-dict incoming value leaves the original unchanged; otherwise
`merged = original.copy(); merged.update(incoming)`. -/
def mergeDicts {α : Type} (original incoming : PyMaybeDict α) : PyMaybeDict α :=
  let orig := match original with
    | .dict l => l
    | .nondict => []
  match incoming with
  | .nondict => .dict orig
  | .dict inc => .dict (dictUpdate orig inc)

/-- The truthiness test `lang and isinstance(obj.title_i18n, dict) and
obj.title_i18n.get(lang)` from `get_title_resolved`: returns the override
value together with the requested language when the request carries a
language and the override entry exists and is a non-empty string. -/
def overrideLookup (i18n : List (String × String)) (lang : Option String) :
    Option (String × String) :=
  match lang with
  | none => none
  | some l =>
    match dictGet i18n l with
    | none => none
    | some v => if v = "" then none else some (v, l)

/-- Embedding of `ProjectSerializer.get_title_resolved`
(src/projects/serializers.py lines 121-132).  The result models the returned
`{'text': ..., 'lang': ...}` pair; `none` models Python `None`. -/
def getTitleResolved (lang : Option String) (title csl : String)
    (i18n : List (String × String)) : Option String × Option String :=
  match overrideLookup i18n lang with
  | some (v, l) => (some v, some l)
  | none =>
    if lang = some csl then (some title, some csl)
    else if title ≠ "" then (some title, some csl)
    else
      match i18n.head? with
      | some (k, v) => (some v, some k)
      | none => (none, none)

/-- Resolution precedence as worded by the specification (§4.6): requested
override if present and non-empty; else the scalar title tagged with the
source language when the requested language equals the source language or
the scalar is non-empty; else the first override entry tagged with its
language; else nothing. -/
def titleResolvedSpec (lang : Option String) (title csl : String)
    (i18n : List (String × String)) : Option String × Option String :=
  match overrideLookup i18n lang with
  | some (v, l) => (some v, some l)
  | none =>
    if lang = some csl ∨ title ≠ "" then (some title, some csl)
    else
      match i18n.head? with
      | some (k, v) => (some v, some k)
      | none => (none, none)

/-!
### Project reorder endpoint

Embedding of `ProjectViewSet.reorder` (src/projects/views.py lines 36-62)
and `ProjectViewSet.perform_create` (lines 31-34).  A project row is
modelled by its primary key and `order` field; the other columns are not
read by either endpoint.  Primary keys are unique in the database, so the
`id_to_project` dict built by `reorder` is modelled by updating every row
whose id matches (at most one).  Error responses (HTTP 400) carry no table
state: the code returns before any write, and the bulk update in the
success branch is the only write.
-/

/-- A project row as needed by the reorder/create endpoints. -/
structure ProjRow where
  id : Nat
  order : Nat
  deriving DecidableEq, Repr

/-- The validation errors of the write endpoints.  The Python code raises
`serializers.ValidationError` or returns a 400 response with a message;
only the error case matters here, messages are kept in source comments. -/
inductive ValidationError where
  /-- "Field 'order' must be a list of IDs" -/
  | orderNotAList
  /-- "The list of IDs does not match with existing projects" -/
  | orderIdMismatch
  /-- "Invalid image payload for new image." -/
  | invalidImagePayload
  /-- "New images must include a base64 'image'." -/
  | missingImage
  deriving DecidableEq, Repr

/-- The `order` field of the request body: either not a list (covers a
missing field and a non-list value) or a list of ids. -/
inductive OrderBody where
  | notList
  | list (l : List Nat)

/-- Index assigned to `x` by the loop `for idx, pid in enumerate(order_list):
id_to_project[pid].order = idx`: the last position of `x` in the list wins
because each assignment overwrites the previous one. -/
def lastIdxOf (l : List Nat) (x : Nat) : Option Nat :=
  l.enum.foldl (fun acc p => if p.2 = x then some p.1 else acc) none

/-- `set(a) == set(b)` on lists of ids. -/
def setEqNat (a b : List Nat) : Bool :=
  a.all (fun i => b.contains i) && b.all (fun i => a.contains i)

/-- Embedding of `ProjectViewSet.reorder`: filter the existing projects to
the submitted ids, reject when the submitted id set differs from the id set
of that filtered queryset, otherwise assign each submitted id its position
index as the new `order` and bulk-update. -/
def reorder (table : List ProjRow) (body : OrderBody) :
    Except ValidationError (List ProjRow) :=
  match body with
  | .notList => .error .orderNotAList
  | .list l =>
    let projects := table.filter (fun p => l.contains p.id)
    if setEqNat l (projects.map (fun p => p.id)) then
      .ok (table.map (fun p =>
        match lastIdxOf l p.id with
        | some k => { p with order := k }
        | none => p))
    else .error .orderIdMismatch

/-!
### Project creation order assignment

Embedding of `ProjectViewSet.perform_create` (src/projects/views.py lines
31-34) together with the serializer mechanics that make `order` read-only:
`ProjectSerializer.Meta.read_only_fields` contains `'order'`, so a
client-submitted `order` never reaches `validated_data`; `perform_create`
injects `order=next_order` through `serializer.save(...)`, and
`ProjectSerializer.create` reads it back with `validated_data.get('order', 0)`.
Fields not involved in the order computation (`title_i18n`, images, ...)
are omitted from the record.
-/

/-- The client-submitted create payload (relevant scalar fields). -/
structure RawProjectPayload where
  title : String
  content : Option String
  content_source_lang : Option String
  hidden : Option Bool
  /-- A client-supplied `order`; dropped by the serializer (read-only). -/
  order : Option Nat
  deriving DecidableEq, Repr

/-- A persisted project record as produced by `ProjectSerializer.create`. -/
structure ProjectRecord where
  title : String
  content : Option String
  content_source_lang : String
  hidden : Bool
  order : Nat
  deriving DecidableEq, Repr

/-- `Project.objects.aggregate(models.Max('order'))['order__max']`:
`None` on an empty table, otherwise the maximum. -/
def maxOrderAgg (orders : List Nat) : Option Nat :=
  orders.foldl (fun acc o => match acc with | none => some o | some m => some (max m o)) none

/-- `next_order = (max_order + 1) if max_order is not None else 0`. -/
def nextOrder (orders : List Nat) : Nat :=
  match maxOrderAgg orders with
  | some m => m + 1
  | none => 0

/-- DRF drops read-only fields from `validated_data`. -/
def dropReadOnly (raw : RawProjectPayload) : RawProjectPayload :=
  { raw with order := none }

/-- `ProjectSerializer.create` on the validated data (scalar fields):
`Project.objects.create(..., content_source_lang=validated_data.get(
'content_source_lang', 'en'), order=validated_data.get('order', 0),
hidden=validated_data.get('hidden', False))`. -/
def projectCreateFromValidated (v : RawProjectPayload) : ProjectRecord :=
  { title := v.title
    content := v.content
    content_source_lang := v.content_source_lang.getD "en"
    hidden := v.hidden.getD false
    order := v.order.getD 0 }

/-- `perform_create`: compute `next_order` from the `Max` aggregate of the
existing orders and pass it to `serializer.save(order=next_order)`, which
overrides the (absent, read-only) client `order` in the validated data. -/
def performCreate (existingOrders : List Nat) (raw : RawProjectPayload) : ProjectRecord :=
  projectCreateFromValidated
    { dropReadOnly raw with order := some (nextOrder existingOrders) }

/-!
### Gallery image model and save pipeline

Embedding of `ProjectImage` (src/projects/models.py lines 48-178); the
`AboutImage` model (src/pages/models.py lines 54-164) is textually identical
in every embedded method.  Modelling choices:

* File fields are modelled by their storage name (`Option String`, `none`
  for a falsy/absent file) plus the readable bytes of the primary file
  (`Option String`; `none` models a file whose `.file`/`read` access fails).
* External effects are an explicit environment `Env`: the SHA-256 digest,
  base64 decoding (`none` models a raised exception), PIL decoding
  (`none` models a decode — or encode — failure inside
  `_generate_low_variant`, which the caller swallows), and the
  uuid-based name generation of the `upload_to` callables.
* The resize height `int(im.height * (240 / float(im.width)))` is computed
  by the Python source in IEEE binary64 doubles, which do NOT always agree
  with the exact rational truncation (e.g. at 298×149 the doubles give 119
  where the exact floor is 120).  The embedding therefore models the
  binary64 arithmetic explicitly: `F64` is a positive double as an integer
  significand in `[2^52, 2^53)` times a power of two, and `roundRat`
  performs round-to-nearest, ties-to-even.  Zero is `⟨0, 0⟩`; the exponent
  is unbounded (overflow/subnormals, reachable only for widths beyond
  ~2^1021 where Python's `float(w)` semantics change, are not modelled) and
  `bitlen` is exact for operands below `2^200`, which covers every
  significand and product in this pipeline.
-/

/-- A (positive or zero) IEEE binary64 value: `m * 2^e` with
`2^52 ≤ m < 2^53` for nonzero values. -/
structure F64 where
  m : Nat
  e : Int
  deriving DecidableEq, Repr

/-- Bit length with explicit fuel so that concrete instances evaluate by
kernel reduction; exact for `n < 2^200`. -/
def bitlenAux : Nat → Nat → Nat
  | 0, _ => 0
  | fuel + 1, n => if n = 0 then 0 else 1 + bitlenAux fuel (n / 2)

def bitlen (n : Nat) : Nat := bitlenAux 200 n

/-- Round the rational `(n / d) * 2^e` to the nearest binary64 value,
ties to even: scale into `[2^52, 2^54)`, renormalise one step if needed,
round the quotient, and carry a mantissa overflow into the exponent. -/
def roundRat (n d : Nat) (e : Int) : F64 :=
  if n = 0 then ⟨0, 0⟩ else
  let shift : Int := 53 + (bitlen d : Int) - (bitlen n : Int)
  let num := if 0 ≤ shift then n <<< shift.toNat else n
  let den := if 0 ≤ shift then d else d <<< (-shift).toNat
  let g : Int := e - shift
  let (num2, den2, g2) :=
    if num / den ≥ 2 ^ 53 then (num, den * 2, g + 1) else (num, den, g)
  let m0 := num2 / den2
  let r := num2 % den2
  let m1 :=
    if 2 * r < den2 then m0
    else if 2 * r > den2 then m0 + 1
    else if m0 % 2 = 0 then m0 else m0 + 1
  if m1 = 2 ^ 53 then ⟨2 ^ 52, g2 + 1⟩ else ⟨m1, g2⟩

/-- `float(n)` on a non-negative int. -/
def f64ofNat (n : Nat) : F64 := roundRat n 1 0

/-- Correctly rounded binary64 division (positive operands). -/
def f64div (x y : F64) : F64 := roundRat x.m y.m (x.e - y.e)

/-- Correctly rounded binary64 multiplication (non-negative operands). -/
def f64mul (x y : F64) : F64 := roundRat (x.m * y.m) 1 (x.e + y.e)

/-- Python `int(x)` on a non-negative double: truncation toward zero. -/
def f64trunc (x : F64) : Nat :=
  if 0 ≤ x.e then x.m <<< x.e.toNat else x.m >>> (-x.e).toNat

/-- `int(im.height * (240 / float(im.width)))` — the resize height of
`_generate_low_variant`, computed in binary64 exactly as the source does:
`ratio = target_width / float(im.width)` then `im.height * ratio`. -/
def pyResizeHeight (w h : Nat) : Nat :=
  f64trunc (f64mul (f64ofNat h) (f64div (f64ofNat 240) (f64ofNat w)))

/-- A decoded raster image as far as the variant generator inspects it. -/
structure PILImage where
  width : Nat
  height : Nat
  mode : String
  deriving DecidableEq, Repr

/-- The resize step of `_generate_low_variant` (src/projects/models.py
lines 87-92): `if im.width > 240: im = im.resize((240, max(1,
int(im.height * ratio))))` with `ratio = 240 / float(im.width)`, no
upscaling otherwise.  The width comparison is exact integer arithmetic;
the height goes through binary64 doubles (`pyResizeHeight`). -/
def lowVariantDims (w h : Nat) : Nat × Nat :=
  if w > 240 then (240, max 1 (pyResizeHeight w h)) else (w, h)

/-- The full image transform of `_generate_low_variant`: normalise the
color mode to RGB unless it is already RGB or L, downscale, blur (the blur
does not change dimensions), encode as WEBP. -/
def lowVariantImage (im : PILImage) : PILImage :=
  let im := if im.mode ≠ "RGB" ∧ im.mode ≠ "L" then { im with mode := "RGB" } else im
  let d := lowVariantDims im.width im.height
  { im with width := d.1, height := d.2 }

/-- A gallery image row (`ProjectImage`/`AboutImage`).  `pk` is `none`
before the first save; `hash` is the hex digest field (empty string until
computed). -/
structure ImgRow where
  pk : Option Nat
  imageName : Option String
  imageBytes : Option String
  imageLowName : Option String
  caption : String
  order : Nat
  isCover : Bool
  hash : String
  deriving DecidableEq, Repr

/-- The id of a persisted row (rows inside a gallery state always have a
primary key). -/
def rowId (r : ImgRow) : Nat := r.pk.getD 0

/-- External collaborators of the image pipeline. -/
structure Env where
  /-- `hashlib.sha256(data).hexdigest()` -/
  sha256 : String → String
  /-- `base64.b64decode(b64)`; `none` models a raised exception. -/
  b64decode : String → Option String
  /-- `PIL.Image.open(...)` + `load()`; `none` models a failure anywhere in
  the decode/transform/encode sequence of `_generate_low_variant`. -/
  decodeImage : String → Option PILImage
  /-- `f"{uuid.uuid4().hex}.{ext}"` for a decoded base64 payload. -/
  freshName : String → String
  /-- The storage key produced by `image_low.save(low_name, ...)` through
  `*_image_low_upload_to` for a given primary name. -/
  lowName : String → String

/-- The hash step at the top of `ProjectImage.save` (lines 110-126):
compute the digest from the primary file bytes only when a primary image is
present, the `hash` field is still empty, the file is readable and the read
returns non-empty data. -/
def hashStep (env : Env) (r : ImgRow) : ImgRow :=
  { r with hash :=
      if r.imageName.isSome && r.hash == "" then
        match r.imageBytes with
        | some d => if d ≠ "" then env.sha256 d else r.hash
        | none => r.hash
      else r.hash }

/-- The regeneration decision of `ProjectImage.save` (lines 128-148): new
record, or primary name changed with a new name present, or no low-res yet
while a primary name is present.  `db` is the row fetched by
`ProjectImage.objects.only("image", "image_low").get(pk=...)` — `none` both
for an unsaved instance and for a missing row (`DoesNotExist`). -/
def regenFlag (db : Option ImgRow) (r : ImgRow) : Bool :=
  if r.pk.isNone then true
  else
    let oldName := db.bind (fun o => o.imageName)
    if oldName != r.imageName && r.imageName.isSome then true
    else if r.imageLowName.isNone && r.imageName.isSome then true
    else false

/-- `_generate_low_variant` (lines 70-107): returns the storage name of the
generated low-res file, or `none` when the method fails (early return on a
falsy image, unreadable file, or decode/encode failure) — the pixel content
of the encoded WEBP is not tracked, only `lowVariantImage` records the
transform. -/
def genLowVariant (env : Env) (r : ImgRow) : Option String :=
  match r.imageName with
  | none => none
  | some n =>
    match r.imageBytes with
    | none => none
    | some bytes =>
      match env.decodeImage bytes with
      | none => none
      | some im =>
        let _ := lowVariantImage im
        some (env.lowName n)

/-- `ProjectImage.save` (lines 109-160): hash step, regeneration decision,
main save (assigning a primary key to a new row), then — only when needed
and a primary image is present — the attempt to generate the low-res
variant followed by `super().save(update_fields=["image_low"])`; a
generation failure is swallowed.  Returns the saved row and whether the
regeneration attempt was made. -/
def saveImage (env : Env) (db : Option ImgRow) (r0 : ImgRow) (newPk : Nat) :
    ImgRow × Bool :=
  let r1 := hashStep env r0
  let regen := regenFlag db r1
  let r2 := { r1 with pk := some (r1.pk.getD newPk) }
  if regen && r2.imageName.isSome then
    match genLowVariant env r2 with
    | some low => ({ r2 with imageLowName := some low }, true)
    | none => (r2, true)
  else (r2, false)

/-!
### Nested gallery serializers and reconciler

Embedding of `ProjectImageSerializer` and the gallery part of
`ProjectSerializer.create`/`update` (src/projects/serializers.py lines
43-85 and 169-261).  `AboutImageSerializer`/`AboutSerializer`
(src/pages/serializers.py) are textually identical in every embedded part.
The parent's scalar/i18n fields are saved before the gallery loop and do
not interact with it, so the gallery state carries only the child rows, the
primary-key sequence, and the set of stored asset keys.
-/

/-- Prefix test on characters (Python `str.startswith`), structurally
recursive so that concrete instances evaluate in the kernel. -/
def isPrefixL : List Char → List Char → Bool
  | [], _ => true
  | _ :: _, [] => false
  | a :: as, b :: bs => a == b && isPrefixL as bs

/-- Split at the first occurrence of `sep` (non-empty), returning the parts
before and after; `none` when `sep` does not occur. -/
def breakOnSub (sep : List Char) : List Char → Option (List Char × List Char)
  | [] => none
  | c :: rest =>
    if isPrefixL sep (c :: rest) then some ([], (c :: rest).drop sep.length)
    else
      match breakOnSub sep rest with
      | some (pre, post) => some (c :: pre, post)
      | none => none

/-- Whether `sep` occurs in the list. -/
def containsSub (sep : List Char) : List Char → Bool
  | [] => false
  | c :: rest => isPrefixL sep (c :: rest) || containsSub sep rest

/-- Python `fmt, b64 = base64_string.split(';base64,')`: succeeds exactly
when the separator occurs exactly once (any other part count raises, which
the source catches). -/
def splitBase64 (s : String) : Option (String × String) :=
  let sep := ";base64,".data
  match breakOnSub sep s.data with
  | none => none
  | some (pre, post) =>
    if containsSub sep post then none else some (⟨pre⟩, ⟨post⟩)

/-- `ProjectImageSerializer._get_image_file_and_hash` (lines 43-55): for a
string starting with `data:image`, split off the base64 part, decode it,
and return the `ContentFile` name, the SHA-256 digest of the decoded data,
and the data; `none` models the `(None, None)` returns. -/
def getImageFileAndHash (env : Env) (s : String) :
    Option (String × String × String) :=
  if isPrefixL "data:image".data s.data then
    match splitBase64 s with
    | none => none
    | some (_fmt, b64) =>
      match env.b64decode b64 with
      | none => none
      | some data => some (env.freshName s, env.sha256 data, data)
  else none

/-- One entry of the submitted `images` list (validated data of
`ProjectImageSerializer`; `hash` is read-only and never client-supplied). -/
structure ImgOpPayload where
  id : Option Nat
  image : Option String
  caption : Option String
  order : Option Nat
  is_cover : Option Bool
  deriving DecidableEq, Repr

/-- Python truthiness of an optional int (`if img_id:`): 0 is falsy. -/
def truthyNat (o : Option Nat) : Option Nat :=
  match o with
  | some n => if n ≠ 0 then some n else none
  | none => none

/-- Python truthiness of an optional string (`if img_data:`): the empty
string is falsy. -/
def truthyStr (o : Option String) : Option String :=
  match o with
  | some s => if s ≠ "" then some s else none
  | none => none

/-- The three leading `if 'field' in validated_data:` assignments of
`ProjectImageSerializer.update` (lines 70-75). -/
def applyScalarFields (r : ImgRow) (p : ImgOpPayload) : ImgRow :=
  let r1 := match p.caption with | some c => { r with caption := c } | none => r
  let r2 := match p.order with | some o => { r1 with order := o } | none => r1
  match p.is_cover with | some b => { r2 with isCover := b } | none => r2

/-- The `if file_obj:` replacement of image and hash in
`ProjectImageSerializer.update` (lines 79-82), on the result of
`_get_image_file_and_hash`. -/
def applyImagePayload (inst : ImgRow) :
    Option (String × String × String) → ImgRow
  | some (fname, hv, data) =>
    { inst with imageName := some fname, imageBytes := some data, hash := hv }
  | none => inst

/-- `ProjectImageSerializer.update` (lines 69-85): apply partial
caption/order/is_cover changes, replace the primary image and hash when a
decodable payload is supplied, then `instance.save()` (against the
persisted row, which still holds the old image name). -/
def serializerImageUpdate (env : Env) (persisted : ImgRow) (p : ImgOpPayload) :
    ImgRow :=
  let inst := applyScalarFields persisted p
  let inst := match truthyStr p.image with
    | some s => applyImagePayload inst (getImageFileAndHash env s)
    | none => inst
  (saveImage env (some persisted) inst (inst.pk.getD 0)).1

/-- The persisted gallery of one parent: child rows (all with a primary
key), the next value of the primary-key sequence, and the stored asset
keys. -/
structure GalleryState where
  rows : List ImgRow
  nextId : Nat
  storage : List String
  deriving DecidableEq, Repr

/-- Number of children flagged as cover. -/
def countCovers (rows : List ImgRow) : Nat :=
  (rows.filter (fun r => r.isCover)).length

/-- Strict comparison in the model's default ordering
(`Meta.ordering = ['order', 'id']`). -/
def rowLt (a b : ImgRow) : Prop :=
  a.order < b.order ∨ (a.order = b.order ∧ rowId a < rowId b)

instance (a b : ImgRow) : Decidable (rowLt a b) :=
  inferInstanceAs (Decidable (_ ∨ _))

/-- `queryset.first()` under the default ordering: the minimal row. -/
def qsFirst (l : List ImgRow) : Option ImgRow :=
  l.foldl (fun acc r =>
    match acc with
    | none => some r
    | some m => if rowLt r m then some r else some m) none

/-- The row update issued by `cover_images.exclude(pk=first.pk)
.update(is_cover=False)`: clear `is_cover` on every cover row whose id
differs from `fid`. -/
def clearExcept (fid : Nat) (rows : List ImgRow) : List ImgRow :=
  rows.map (fun r =>
    if r.isCover = true ∧ rowId r ≠ fid then { r with isCover := false } else r)

/-- `_enforce_single_cover` (src/projects/serializers.py lines 160-166,
identically src/pages/serializers.py lines 109-113): when more than one
child claims cover, keep the first cover of the default ordering and clear
the rest. -/
def enforceSingleCover (st : GalleryState) : GalleryState :=
  let covers := st.rows.filter (fun r => r.isCover)
  if covers.length > 1 then
    match qsFirst covers with
    | some first => { st with rows := clearExcept (rowId first) st.rows }
    | none => st
  else st

/-- Storage keys freed by deleting a row (`ProjectImage.delete`, lines
162-178: best-effort delete of the primary and low-res files). -/
def eraseRowAssets (storage : List String) (r : ImgRow) : List String :=
  let s1 := match r.imageName with
    | some n => storage.erase n
    | none => storage
  match r.imageLowName with
  | some n => s1.erase n
  | none => s1

/-- Step 1 of `ProjectSerializer.update` (lines 224-227): delete every
child whose id is in `images_to_remove`. -/
def removeImages (st : GalleryState) (ids : List Nat) : GalleryState :=
  if ids.isEmpty then st
  else
    let doomed := st.rows.filter (fun r => ids.contains (rowId r))
    { st with
      rows := st.rows.filter (fun r => !(ids.contains (rowId r)))
      storage := doomed.foldl eraseRowAssets st.storage }

/-- Step 2 of `ProjectSerializer.update` (lines 230-232): clear `is_cover`
on all persisted children. -/
def clearCovers (st : GalleryState) : GalleryState :=
  { st with rows := st.rows.map (fun r =>
      if r.isCover then { r with isCover := false } else r) }

/-- New-asset keys uploaded by a save that turned `old` into `new`. -/
def newAssets (old new : ImgRow) : List String :=
  (if new.imageName ≠ old.imageName then new.imageName.toList else [])
    ++ (if new.imageLowName ≠ old.imageLowName then new.imageLowName.toList else [])

/-- `ProjectImage.objects.create(project=..., image=file_obj, hash=...,
caption=..., order=..., is_cover=...)` from the reconciler's insert path
(lines 251-258): build the unsaved row, run the model save, append the row
and record the uploaded assets. -/
def createImage (env : Env) (st : GalleryState) (fname hv data : String)
    (op : ImgOpPayload) : GalleryState :=
  let inst : ImgRow :=
    { pk := none
      imageName := some fname
      imageBytes := some data
      imageLowName := none
      caption := op.caption.getD ""
      order := op.order.getD 0
      isCover := op.is_cover.getD false
      hash := hv }
  let saved := (saveImage env none inst st.nextId).1
  { rows := st.rows ++ [saved]
    nextId := st.nextId + 1
    storage := st.storage ++ [fname] ++ saved.imageLowName.toList }

/-- `if not file_obj: continue` / the create call, on the result of
`_get_image_file_and_hash`. -/
def insertDecoded (env : Env) (st : GalleryState) (op : ImgOpPayload) :
    Option (String × String × String) → GalleryState
  | none => st
  | some (fname, hv, data) => createImage env st fname hv data op

/-- The insert branch of the reconciler (also the whole body of the create
loop, lines 184-198): skip a falsy or undecodable payload, otherwise create
the child. -/
def createOp (env : Env) (st : GalleryState) (op : ImgOpPayload) : GalleryState :=
  match truthyStr op.image with
  | none => st
  | some s => insertDecoded env st op (getImageFileAndHash env s)

/-- The `try: img = instance.images.get(id=img_id) except DoesNotExist:
continue` / serializer-update call, on the result of the id lookup. -/
def updateFound (env : Env) (st : GalleryState) (op : ImgOpPayload) (i : Nat) :
    Option ImgRow → GalleryState
  | none => st
  | some row =>
    let row' := serializerImageUpdate env row op
    { st with
      rows := st.rows.map (fun r => if rowId r == i then row' else r)
      storage := st.storage ++ newAssets row row' }

/-- Step 3 of `ProjectSerializer.update` (lines 235-258): an operation with
a truthy id updates the matching child (silently skipped when none
matches), otherwise the insert branch runs. -/
def applyOp (env : Env) (st : GalleryState) (op : ImgOpPayload) : GalleryState :=
  match truthyNat op.id with
  | some i => updateFound env st op i (st.rows.find? (fun r => rowId r == i))
  | none => createOp env st op

/-- The gallery part of `ProjectSerializer.update` (lines 223-261):
deletions, the cover-clearing pre-pass when any incoming operation claims
cover, the operation loop, and the final single-cover enforcement. -/
def galleryUpdateCore (env : Env) (st : GalleryState) (idsToRemove : List Nat)
    (ops : List ImgOpPayload) : GalleryState :=
  let st1 := removeImages st idsToRemove
  let st2 := if ops.any (fun o => o.is_cover.getD false) then clearCovers st1 else st1
  let st3 := ops.foldl (applyOp env) st2
  enforceSingleCover st3

/-- `ProjectSerializer.update` as the HTTP layer sees it: a
`ValidationError` would surface as `.error`, but no statement in the
embedded lines raises one (the only raises in the file are in
`ProjectImageSerializer.create`, which this path does not call). -/
def galleryUpdate (env : Env) (st : GalleryState) (idsToRemove : List Nat)
    (ops : List ImgOpPayload) : Except ValidationError GalleryState :=
  .ok (galleryUpdateCore env st idsToRemove ops)

/-- The gallery part of `ProjectSerializer.create` (lines 184-201): start
from an empty gallery, run the insert loop, enforce the single cover. -/
def galleryCreateCore (env : Env) (ops : List ImgOpPayload) : GalleryState :=
  enforceSingleCover (ops.foldl (createOp env) ⟨[], 1, []⟩)

/-! ### Supporting lemmas for the dict operations -/

theorem dictGet_dictSet {α : Type} (l : List (String × α)) (k k' : String) (v : α) :
    dictGet (dictSet l k v) k' = if k' = k then some v else dictGet l k' := by
  induction l with
  | nil =>
    by_cases h : k' = k
    · subst h; simp [dictGet, dictSet]
    · have h' : ¬ k = k' := fun hc => h hc.symm
      simp [dictGet, dictSet, h, h']
  | cons p t ih =>
    obtain ⟨k0, v0⟩ := p
    by_cases h0 : k0 = k
    · subst h0
      by_cases h : k' = k0
      · subst h; simp [dictGet, dictSet]
      · have h' : ¬ k0 = k' := fun hc => h hc.symm
        simp [dictGet, dictSet, h, h']
    · by_cases h : k' = k0
      · subst h
        have hk : ¬ k' = k := fun hc => h0 (hc ▸ rfl)
        simp [dictGet, dictSet, h0, hk]
      · have h' : ¬ k0 = k' := fun hc => h hc.symm
        simp [dictGet, dictSet, h0, h', ih]

theorem dictGet_none_of_not_mem {α : Type} (l : List (String × α)) (k : String)
    (h : k ∉ l.map Prod.fst) : dictGet l k = none := by
  induction l with
  | nil => rfl
  | cons p t ih =>
    obtain ⟨k0, v0⟩ := p
    simp only [List.map_cons, List.mem_cons] at h
    push_neg at h
    have : ¬ k0 = k := fun hc => h.1 (hc ▸ rfl)
    simp [dictGet, this, ih h.2]

theorem dictGet_dictUpdate {α : Type} (base upd : List (String × α)) (k : String)
    (h : (upd.map Prod.fst).Nodup) :
    dictGet (dictUpdate base upd) k = (dictGet upd k).or (dictGet base k) := by
  induction upd generalizing base with
  | nil => simp [dictUpdate, dictGet]
  | cons p t ih =>
    obtain ⟨k0, v0⟩ := p
    simp only [List.map_cons, List.nodup_cons] at h
    have hrec := ih (dictSet base k0 v0) h.2
    simp only [dictUpdate, List.foldl_cons] at hrec ⊢
    rw [hrec, dictGet_dictSet]
    by_cases hk : k = k0
    · subst hk
      have hnone : dictGet t k = none := dictGet_none_of_not_mem t k h.1
      simp [hnone, dictGet, Option.or]
    · have h' : ¬ k0 = k := fun hc => hk (hc ▸ rfl)
      simp [dictGet, h', hk]

/-- The entries of a merged value (the merge always returns a dict). -/
def entriesOf {α : Type} : PyMaybeDict α → List (String × α)
  | .dict l => l
  | .nondict => []

/-! ### Claim theorems: localized merge and resolution policy -/

/-- C7: the localized-field merge (`_merge_dicts`) maps every key of the
incoming mapping `I` to `I`'s value and every other key of the persisted
mapping `M` to `M`'s value; it never removes a key of `M`; merging the empty
mapping into `M` yields `M` unchanged (and in particular merging
`{"en": "x"}` into `{"en": "a", "fr": "b"}` yields `{"en": "x", "fr": "b"}`);
and a non-mapping persisted value is treated as the empty mapping before
merging. -/
theorem c7_localized_merge :
    (∀ (α : Type) (M I : List (String × α)) (k : String), (I.map Prod.fst).Nodup →
        dictGet (entriesOf (mergeDicts (.dict M) (.dict I))) k
          = (dictGet I k).or (dictGet M k))
  ∧ (∀ (α : Type) (M I : List (String × α)) (k : String), (I.map Prod.fst).Nodup →
        (dictGet M k).isSome →
        (dictGet (entriesOf (mergeDicts (.dict M) (.dict I))) k).isSome)
  ∧ (∀ (α : Type) (M : List (String × α)),
        mergeDicts (PyMaybeDict.dict M) (PyMaybeDict.dict []) = PyMaybeDict.dict M)
  ∧ mergeDicts (PyMaybeDict.dict [("en", "a"), ("fr", "b")])
        (PyMaybeDict.dict [("en", "x")])
      = PyMaybeDict.dict [("en", "x"), ("fr", "b")]
  ∧ (∀ (α : Type) (inc : PyMaybeDict α),
        mergeDicts PyMaybeDict.nondict inc = mergeDicts (PyMaybeDict.dict []) inc) := by
  refine ⟨?_, ?_, ?_, ?_, ?_⟩
  · intro α M I k h
    simpa [mergeDicts, entriesOf] using dictGet_dictUpdate M I k h
  · intro α M I k h hM
    have := dictGet_dictUpdate M I k h
    simp only [mergeDicts, entriesOf] at this ⊢
    rw [this]
    cases hI : dictGet I k <;> simp [Option.or, hM]
  · intro α M; rfl
  · rfl
  · intro α inc; cases inc <;> rfl

/-- Set equality against the filtered queryset ids reduces to: every
submitted id belongs to the table.  The `⊇` direction of the Python check is
automatic because the queryset is filtered by `id__in=order_list`. -/
theorem setEq_filter_iff (table : List ProjRow) (l : List Nat) :
    setEqNat l ((table.filter (fun p => l.contains p.id)).map (fun p => p.id)) = true
      ↔ ∀ i ∈ l, i ∈ table.map (fun p => p.id) := by
  simp only [setEqNat, Bool.and_eq_true, List.all_eq_true, List.mem_map,
    List.mem_filter, List.elem_iff, List.contains]
  constructor
  · rintro ⟨h1, _⟩ i hi
    obtain ⟨p, ⟨hp, _⟩, hpid⟩ := h1 i hi
    exact ⟨p, hp, hpid⟩
  · intro h
    constructor
    · intro i hi
      obtain ⟨p, hp, hpid⟩ := h i hi
      exact ⟨p, ⟨hp, by simpa [hpid] using hi⟩, hpid⟩
    · rintro i ⟨p, ⟨hp, hmem⟩, hpid⟩
      simpa [hpid] using hmem

/-- Auxiliary fold invariant for the `Max` aggregate. -/
theorem maxAggAux (l : List Nat) (a : Nat) :
    ∃ m, l.foldl (fun acc o => match acc with | none => some o | some m' => some (max m' o))
          (some a) = some m
      ∧ (m = a ∨ m ∈ l) ∧ a ≤ m ∧ ∀ o ∈ l, o ≤ m := by
  induction l generalizing a with
  | nil => exact ⟨a, rfl, Or.inl rfl, le_refl a, by simp⟩
  | cons x t ih =>
    obtain ⟨m, hm, hmem, hle, hall⟩ := ih (max a x)
    refine ⟨m, hm, ?_, le_trans (le_max_left a x) hle, ?_⟩
    · rcases hmem with h | h
      · rcases max_choice a x with hc | hc
        · exact Or.inl (h.trans hc)
        · exact Or.inr (h.trans hc ▸ List.mem_cons_self x t)
      · exact Or.inr (List.mem_cons_of_mem x h)
    · intro o ho
      rcases List.mem_cons.mp ho with h | h
      · exact h ▸ le_trans (le_max_right a x) hle
      · exact hall o h

/-- On a non-empty table the `Max` aggregate returns an element that bounds
every order value. -/
theorem maxOrderAgg_spec (l : List Nat) (h : l ≠ []) :
    ∃ m, maxOrderAgg l = some m ∧ m ∈ l ∧ ∀ o ∈ l, o ≤ m := by
  cases l with
  | nil => exact absurd rfl h
  | cons x t =>
    obtain ⟨m, hm, hmem, hle, hall⟩ := maxAggAux t x
    refine ⟨m, hm, ?_, ?_⟩
    · rcases hmem with hh | hh
      · exact hh ▸ List.mem_cons_self x t
      · exact List.mem_cons_of_mem x hh
    · intro o ho
      rcases List.mem_cons.mp ho with hh | hh
      · exact hh ▸ hle
      · exact hall o hh

/-- C9: a project created through the API gets `order` equal to one plus
the maximum existing order (0 on an empty table), strictly above every
existing order, and the client-supplied `order` in the payload is ignored
(the field is read-only in the serializer). -/
theorem c9_create_order (existing : List Nat) (raw : RawProjectPayload) :
    ((performCreate existing raw).order = nextOrder existing)
  ∧ (existing = [] → (performCreate existing raw).order = 0)
  ∧ (∀ o ∈ existing, o < (performCreate existing raw).order)
  ∧ (existing ≠ [] → ∃ m ∈ existing, (performCreate existing raw).order = m + 1)
  ∧ (∀ o : Option Nat, performCreate existing { raw with order := o }
       = performCreate existing raw) := by
  refine ⟨rfl, ?_, ?_, ?_, fun o => rfl⟩
  · intro h; subst h; rfl
  · intro o ho
    have hne : existing ≠ [] := by
      intro h; subst h; simp at ho
    obtain ⟨m, hm, _, hall⟩ := maxOrderAgg_spec existing hne
    have : (performCreate existing raw).order = m + 1 := by
      simp [performCreate, projectCreateFromValidated, dropReadOnly, nextOrder, hm]
    rw [this]
    exact Nat.lt_succ_of_le (hall o ho)
  · intro hne
    obtain ⟨m, hm, hmem, _⟩ := maxOrderAgg_spec existing hne
    refine ⟨m, hmem, ?_⟩
    simp [performCreate, projectCreateFromValidated, dropReadOnly, nextOrder, hm]

/-- Witness for C9 at a concrete instance: with existing orders `[2, 5]`
and a payload that tries to set `order := 99`, the created project still
gets `order = max + 1`. -/
theorem c9_create_order_witness :
    ∃ m ∈ [2, 5], (performCreate [2, 5] ⟨"t", none, none, none, some 99⟩).order = m + 1 :=
  (c9_create_order [2, 5] ⟨"t", none, none, none, some 99⟩).2.2.2.1 (by decide)

/-- The second component of `saveImage` is exactly the code's
`if regenerate_low and self.image:` gate. -/
theorem saveImage_snd (env : Env) (db : Option ImgRow) (r : ImgRow) (npk : Nat) :
    (saveImage env db r npk).2
      = (regenFlag db (hashStep env r) && (hashStep env r).imageName.isSome) := by
  simp only [saveImage]
  split
  · rename_i hc
    split <;> simp [hc]
  · rename_i hc
    simp only [Bool.not_eq_true] at hc
    exact hc.symm

/-- The regeneration predicate in the words of the spec, amended for C3:
the record is newly created with an image present, or the primary image
reference changed relative to the persisted record with a new image
present, or `image_low` is absent while an image is present. -/
def regenSpec (db : Option ImgRow) (r : ImgRow) : Prop :=
  (r.pk = none ∧ r.imageName.isSome = true)
  ∨ (r.pk.isSome = true ∧ db.bind (fun o => o.imageName) ≠ r.imageName
       ∧ r.imageName.isSome = true)
  ∨ (r.imageLowName = none ∧ r.imageName.isSome = true)

/-- A concrete environment for concrete gallery scenarios: base64 payloads
decode to the bytes `"B"`, decoded images are 480×3 RGB rasters, generated
low-variant keys prefix the primary key with `low/`. -/
def envDemo : Env :=
  { sha256 := fun d => "sha-" ++ d
    b64decode := fun _ => some "B"
    decodeImage := fun _ => some ⟨480, 3, "RGB"⟩
    freshName := fun _ => "fresh.png"
    lowName := fun n => "low/" ++ n }

/-- C3, counterexample: saving a newly created row that carries no primary
image does not attempt low-res regeneration, although the claim's
predicate ("newly created, OR reference changed with a new image present,
OR image_low absent while image present") holds via its first disjunct —
the save only regenerates when an image is present. -/
theorem c3_regen_counterexample :
    ¬ (((saveImage envDemo none ⟨none, none, none, none, "", 0, false, ""⟩ 1).2 = true)
        ↔ ((⟨none, none, none, none, "", 0, false, ""⟩ : ImgRow).pk = none
            ∨ ((none : Option ImgRow).bind (fun o => o.imageName)
                  ≠ (⟨none, none, none, none, "", 0, false, ""⟩ : ImgRow).imageName
                ∧ (⟨none, none, none, none, "", 0, false, ""⟩ : ImgRow).imageName.isSome = true)
            ∨ ((⟨none, none, none, none, "", 0, false, ""⟩ : ImgRow).imageLowName = none
                ∧ (⟨none, none, none, none, "", 0, false, ""⟩ : ImgRow).imageName.isSome = true))) := by
  decide

/-- C3, amended: for every save, the low-res regeneration is attempted iff
the record is newly created with an image present, or the primary image
reference changed relative to the persisted record with a new image
present, or `image_low` is absent while an image is present.  (A save that
changes only caption/order/is_cover on an existing record with `image_low`
present falls in none of the three cases, hence does not regenerate.) -/
theorem c3_regen_iff (env : Env) (db : Option ImgRow) (r : ImgRow) (npk : Nat) :
    (saveImage env db r npk).2 = true ↔ regenSpec db r := by
  rw [saveImage_snd]
  have h1 : (hashStep env r).imageName = r.imageName := rfl
  have h2 : (hashStep env r).pk = r.pk := rfl
  have h3 : (hashStep env r).imageLowName = r.imageLowName := rfl
  unfold regenFlag regenSpec
  rw [h1, h2, h3]
  cases hpk : r.pk <;> cases hname : r.imageName <;> cases hlow : r.imageLowName <;>
    simp [bne_iff_ne]

/-- When the digest field is already populated the hash step is the
identity (`if self.image and not self.hash:` is false). -/
theorem hashStep_of_hash_ne (env : Env) (r : ImgRow) (h : r.hash ≠ "") :
    hashStep env r = r := by
  simp only [hashStep]
  have hc : (r.imageName.isSome && (r.hash == "")) = false := by simp [h]
  rw [hc]
  rfl

/-- A save never changes a populated digest field. -/
theorem saveImage_hash_frame (env : Env) (db : Option ImgRow) (r : ImgRow) (npk : Nat)
    (h : r.hash ≠ "") : ((saveImage env db r npk).1).hash = r.hash := by
  simp only [saveImage, hashStep_of_hash_ne env r h]
  split
  · split <;> rfl
  · rfl

/-- The scalar-field pass of the image serializer update touches none of
pk, image, bytes, low-res reference, or hash. -/
theorem applyScalarFields_frame (r : ImgRow) (p : ImgOpPayload) :
    (applyScalarFields r p).pk = r.pk
  ∧ (applyScalarFields r p).imageName = r.imageName
  ∧ (applyScalarFields r p).imageBytes = r.imageBytes
  ∧ (applyScalarFields r p).imageLowName = r.imageLowName
  ∧ (applyScalarFields r p).hash = r.hash := by
  rcases p with ⟨_, _, c, o, v⟩
  cases c <;> cases o <;> cases v <;> exact ⟨rfl, rfl, rfl, rfl, rfl⟩

/-- C4, counterexample: a persisted gallery image with a non-empty hash but
no low-res variant yet (a decode failure on an earlier save leaves exactly
this state), updated with a caption-only payload: the save self-heals and
regenerates `image_low`, so the `image_low` reference changes although the
claim says it is left unchanged. -/
theorem c4_hash_frame_counterexample :
    ((⟨some 1, some "a.png", some "B", none, "", 0, false, "h"⟩ : ImgRow).hash ≠ "")
  ∧ (serializerImageUpdate envDemo
        ⟨some 1, some "a.png", some "B", none, "", 0, false, "h"⟩
        ⟨none, none, some "c", none, none⟩).imageLowName
      ≠ (⟨some 1, some "a.png", some "B", none, "", 0, false, "h"⟩ : ImgRow).imageLowName := by
  constructor
  · decide
  · decide

/-- C4, amended: for every persisted gallery image whose hash is non-empty,
an update supplying only caption/order/is_cover (no primary-asset payload)
leaves `hash` unchanged, and leaves the `image_low` reference unchanged
provided `image_low` is already present. -/
theorem c4_hash_frame (env : Env) (persisted : ImgRow) (p : ImgOpPayload)
    (hpk : persisted.pk.isSome = true) (hhash : persisted.hash ≠ "")
    (himg : truthyStr p.image = none) :
    ((serializerImageUpdate env persisted p).hash = persisted.hash)
  ∧ (persisted.imageLowName.isSome = true →
      (serializerImageUpdate env persisted p).imageLowName = persisted.imageLowName) := by
  obtain ⟨hf1, hf2, hf3, hf4, hf5⟩ := applyScalarFields_frame persisted p
  set inst := applyScalarFields persisted p with hinst
  have hih : inst.hash ≠ "" := by rw [hf5]; exact hhash
  constructor
  · simp only [serializerImageUpdate, himg, ← hinst]
    rw [saveImage_hash_frame env (some persisted) inst _ hih, hf5]
  · intro hlow
    simp only [serializerImageUpdate, himg, ← hinst]
    have hregen : regenFlag (some persisted) (hashStep env inst) = false := by
      rw [hashStep_of_hash_ne env inst hih]
      simp only [regenFlag, hf1, hf2, hf4]
      obtain ⟨k, hk⟩ := Option.isSome_iff_exists.mp hpk
      rw [hk]
      rcases Option.isSome_iff_exists.mp hlow with ⟨l, hl⟩
      simp [hl]
    simp only [saveImage, hregen, Bool.false_and, if_neg (by simp : ¬ (false = true))]
    rw [hashStep_of_hash_ne env inst hih, hf4]

/-- Witness for the amended C4 at a concrete instance: a caption-only
update of a persisted image with hash `"h"` and a present low-res variant
changes neither. -/
theorem c4_hash_frame_witness :
    ((serializerImageUpdate envDemo
        ⟨some 1, some "a.png", some "B", some "low/a.png", "", 0, false, "h"⟩
        ⟨none, none, some "c", none, none⟩).hash
      = (⟨some 1, some "a.png", some "B", some "low/a.png", "", 0, false, "h"⟩ : ImgRow).hash)
  ∧ ((⟨some 1, some "a.png", some "B", some "low/a.png", "", 0, false, "h"⟩ : ImgRow).imageLowName.isSome = true →
      (serializerImageUpdate envDemo
        ⟨some 1, some "a.png", some "B", some "low/a.png", "", 0, false, "h"⟩
        ⟨none, none, some "c", none, none⟩).imageLowName
      = (⟨some 1, some "a.png", some "B", some "low/a.png", "", 0, false, "h"⟩ : ImgRow).imageLowName) :=
  c4_hash_frame envDemo
    ⟨some 1, some "a.png", some "B", some "low/a.png", "", 0, false, "h"⟩
    ⟨none, none, some "c", none, none⟩ (by decide) (by decide) (by decide)

theorem rowLt_irrefl (a : ImgRow) : ¬ rowLt a a := by
  simp [rowLt]

theorem rowLt_trans {a b c : ImgRow} (h1 : rowLt a b) (h2 : rowLt b c) :
    rowLt a c := by
  unfold rowLt at *
  omega

/-- Fold invariant for `qsFirst`: starting from `some a`, the fold returns
a minimum of `a` and the scanned rows. -/
theorem qsFirstAux (l : List ImgRow) (a : ImgRow) :
    ∃ m, l.foldl (fun acc r =>
          match acc with
          | none => some r
          | some m' => if rowLt r m' then some r else some m') (some a) = some m
      ∧ (m = a ∨ m ∈ l) ∧ (m = a ∨ rowLt m a)
      ∧ (∀ c ∈ l, ¬ rowLt c m) ∧ ¬ rowLt a m := by
  induction l generalizing a with
  | nil =>
    exact ⟨a, rfl, Or.inl rfl, Or.inl rfl, by simp, rowLt_irrefl a⟩
  | cons r t ih =>
    by_cases h : rowLt r a
    · obtain ⟨m, hm, hmem, hord, hall, hnot⟩ := ih r
      simp only [List.foldl_cons, if_pos h]
      refine ⟨m, hm, ?_, ?_, ?_, ?_⟩
      · rcases hmem with heq | hmt
        · exact Or.inr (heq ▸ List.mem_cons_self r t)
        · exact Or.inr (List.mem_cons_of_mem r hmt)
      · rcases hord with heq | hlt
        · exact Or.inr (heq ▸ h)
        · exact Or.inr (rowLt_trans hlt h)
      · intro c hc
        rcases List.mem_cons.mp hc with heq | hct
        · exact heq ▸ hnot
        · exact hall c hct
      · intro hcon
        rcases hord with heq | hlt
        · exact rowLt_irrefl a (rowLt_trans (heq ▸ hcon) h)
        · exact rowLt_irrefl a (rowLt_trans (rowLt_trans hcon hlt) h)
    · obtain ⟨m, hm, hmem, hord, hall, hnot⟩ := ih a
      simp only [List.foldl_cons, if_neg h]
      refine ⟨m, hm, ?_, hord, ?_, hnot⟩
      · rcases hmem with heq | hmt
        · exact Or.inl heq
        · exact Or.inr (List.mem_cons_of_mem r hmt)
      · intro c hc
        rcases List.mem_cons.mp hc with heq | hct
        · subst heq
          intro hcon
          rcases hord with heq2 | hlt
          · exact h (heq2 ▸ hcon)
          · exact h (rowLt_trans hcon hlt)
        · exact hall c hct

/-- `queryset.first()` on a non-empty queryset returns a member that no
other member strictly precedes in the default ordering. -/
theorem qsFirst_min (l : List ImgRow) (hne : l ≠ []) :
    ∃ m, qsFirst l = some m ∧ m ∈ l ∧ ∀ c ∈ l, ¬ rowLt c m := by
  cases l with
  | nil => exact absurd rfl hne
  | cons a t =>
    obtain ⟨m, hm, hmem, _, hall, hnot⟩ := qsFirstAux t a
    refine ⟨m, hm, ?_, ?_⟩
    · rcases hmem with heq | hmt
      · exact heq ▸ List.mem_cons_self a t
      · exact List.mem_cons_of_mem a hmt
    · intro c hc
      rcases List.mem_cons.mp hc with heq | hct
      · exact heq ▸ hnot
      · exact hall c hct

theorem clearExcept_cons (fid : Nat) (x : ImgRow) (t : List ImgRow) :
    clearExcept fid (x :: t)
      = (if x.isCover = true ∧ rowId x ≠ fid then { x with isCover := false } else x)
          :: clearExcept fid t := rfl

/-- Clearing covers relative to an id that occurs nowhere leaves no cover. -/
theorem covers_clearExcept_empty (fid : Nat) (t : List ImgRow)
    (h : ∀ r ∈ t, rowId r ≠ fid) :
    (clearExcept fid t).filter (fun r => r.isCover) = [] := by
  induction t with
  | nil => rfl
  | cons x s ih =>
    have hx : rowId x ≠ fid := h x (List.mem_cons_self x s)
    have hs : ∀ r ∈ s, rowId r ≠ fid := fun r hr => h r (List.mem_cons_of_mem x hr)
    rw [clearExcept_cons]
    by_cases hc : x.isCover = true
    · rw [if_pos ⟨hc, hx⟩, List.filter_cons]
      simpa using ih hs
    · rw [if_neg (fun hcc => hc hcc.1), List.filter_cons]
      simp only [Bool.not_eq_true] at hc
      simp only [hc, Bool.false_eq_true, if_false]
      exact ih hs

/-- Clearing covers relative to a cover row `m` with a unique id leaves
exactly `m` as cover, untouched. -/
theorem covers_clearExcept_single (rows : List ImgRow) (m : ImgRow)
    (hnd : (rows.map rowId).Nodup) (hm : m ∈ rows) (hc : m.isCover = true) :
    (clearExcept (rowId m) rows).filter (fun r => r.isCover) = [m] := by
  induction rows with
  | nil => exact absurd hm (List.not_mem_nil m)
  | cons x t ih =>
    simp only [List.map_cons, List.nodup_cons] at hnd
    rw [clearExcept_cons]
    by_cases hx : rowId x = rowId m
    · have hxm : x = m := by
        rcases List.mem_cons.mp hm with heq | hmt
        · exact heq.symm
        · exact absurd (hx ▸ List.mem_map_of_mem rowId hmt) hnd.1
      have htail : (clearExcept (rowId m) t).filter (fun r => r.isCover) = [] :=
        covers_clearExcept_empty (rowId m) t
          (fun r hr hcon => hnd.1 (by
            rw [hx, ← hcon]
            exact List.mem_map_of_mem rowId hr))
      rw [if_neg (fun hcc => hcc.2 hx), List.filter_cons]
      subst hxm
      simp only [hc, if_true, htail]
    · have hmt : m ∈ t := by
        rcases List.mem_cons.mp hm with heq | hmt
        · exact absurd (congrArg rowId heq).symm hx
        · exact hmt
      have htail := ih hnd.2 hmt
      by_cases hxc : x.isCover = true
      · rw [if_pos ⟨hxc, fun hcc => hx hcc⟩, List.filter_cons]
        simpa using htail
      · rw [if_neg (fun hcc => hxc hcc.1), List.filter_cons]
        simp only [Bool.not_eq_true] at hxc
        simp only [hxc, Bool.false_eq_true, if_false]
        exact htail

/-- With at most one cover, `_enforce_single_cover` issues no update. -/
theorem enforce_eq_of_le_one (st : GalleryState) (h : countCovers st.rows ≤ 1) :
    enforceSingleCover st = st := by
  unfold countCovers at h
  simp only [enforceSingleCover]
  rw [if_neg (by omega)]

/-- With two or more covers, `_enforce_single_cover` keeps exactly the
minimal cover of the default ordering. -/
theorem enforce_single (st : GalleryState) (hnd : (st.rows.map rowId).Nodup)
    (h2 : 2 ≤ countCovers st.rows) :
    ∃ m, m ∈ st.rows ∧ m.isCover = true
      ∧ (∀ c ∈ st.rows, c.isCover = true → ¬ rowLt c m)
      ∧ (enforceSingleCover st).rows = clearExcept (rowId m) st.rows
      ∧ (enforceSingleCover st).rows.filter (fun r => r.isCover) = [m] := by
  unfold countCovers at h2
  have hne : st.rows.filter (fun r => r.isCover) ≠ [] := by
    intro hnil
    rw [hnil] at h2
    simp at h2
  obtain ⟨m, hq, hmem, hmin⟩ := qsFirst_min _ hne
  obtain ⟨hmrow, hmc⟩ := List.mem_filter.mp hmem
  have hrows : (enforceSingleCover st).rows = clearExcept (rowId m) st.rows := by
    simp only [enforceSingleCover]
    rw [if_pos (by omega), hq]
  refine ⟨m, hmrow, hmc, ?_, hrows, ?_⟩
  · intro c hc hcc
    exact hmin c (List.mem_filter.mpr ⟨hc, hcc⟩)
  · rw [hrows]
    exact covers_clearExcept_single st.rows m hnd hmrow hmc

/-- After `_enforce_single_cover` at most one child claims cover. -/
theorem enforce_le_one (st : GalleryState) (hnd : (st.rows.map rowId).Nodup) :
    countCovers (enforceSingleCover st).rows ≤ 1 := by
  by_cases h : countCovers st.rows ≤ 1
  · rw [enforce_eq_of_le_one st h]
    exact h
  · obtain ⟨m, _, _, _, _, hfil⟩ := enforce_single st hnd (by omega)
    unfold countCovers
    rw [hfil]
    exact le_refl 1

/-- C10: when the single-cover enforcement pass runs with two or more
cover-claiming children of a parent, the retained cover is the
cover-claiming child least in the model's default `(order, id)` ascending
ordering, kept with all its fields unchanged (it is still a row of the
result, and it is the unique remaining cover), and non-cover rows are
untouched; with zero or one cover-claiming child the pass modifies no
row. -/
theorem c10_enforce_first_cover (st : GalleryState)
    (hnd : (st.rows.map rowId).Nodup) :
    (countCovers st.rows ≤ 1 → enforceSingleCover st = st)
  ∧ (2 ≤ countCovers st.rows →
      ∃ m, m ∈ st.rows ∧ m.isCover = true
        ∧ (∀ c ∈ st.rows, c.isCover = true → ¬ rowLt c m)
        ∧ (enforceSingleCover st).rows.filter (fun r => r.isCover) = [m]
        ∧ m ∈ (enforceSingleCover st).rows
        ∧ (∀ r ∈ st.rows, r.isCover = false → r ∈ (enforceSingleCover st).rows)) := by
  refine ⟨enforce_eq_of_le_one st, ?_⟩
  intro h2
  obtain ⟨m, hmrow, hmc, hmin, hrows, hfil⟩ := enforce_single st hnd h2
  refine ⟨m, hmrow, hmc, hmin, hfil, ?_, ?_⟩
  · rw [hrows]
    have hgm : (if m.isCover = true ∧ rowId m ≠ rowId m then { m with isCover := false }
        else m) = m := if_neg (fun hcc => hcc.2 rfl)
    have := List.mem_map_of_mem
      (fun r => if r.isCover = true ∧ rowId r ≠ rowId m then { r with isCover := false }
        else r) hmrow
    simpa [clearExcept, hgm] using this
  · intro r hr hrc
    rw [hrows]
    have hgr : (if r.isCover = true ∧ rowId r ≠ rowId m then { r with isCover := false }
        else r) = r := if_neg (fun hcc => by rw [hrc] at hcc; exact absurd hcc.1 (by simp))
    have := List.mem_map_of_mem
      (fun r => if r.isCover = true ∧ rowId r ≠ rowId m then { r with isCover := false }
        else r) hr
    simpa [clearExcept, hgr] using this

/-- Witness for C10 at a concrete instance: two covers, the one with the
smaller `(order, id)` key (id 2, order 0) is retained unchanged and the
other is cleared. -/
theorem c10_enforce_first_cover_witness :
    2 ≤ countCovers [⟨some 1, some "a.png", some "B", none, "", 1, true, "h"⟩,
        ⟨some 2, some "b.png", some "B", none, "", 0, true, "g"⟩]
  ∧ ∃ m, m ∈ [⟨some 1, some "a.png", some "B", none, "", 1, true, "h"⟩,
        (⟨some 2, some "b.png", some "B", none, "", 0, true, "g"⟩ : ImgRow)]
      ∧ m.isCover = true
      ∧ (∀ c ∈ [⟨some 1, some "a.png", some "B", none, "", 1, true, "h"⟩,
          (⟨some 2, some "b.png", some "B", none, "", 0, true, "g"⟩ : ImgRow)],
            c.isCover = true → ¬ rowLt c m)
      ∧ (enforceSingleCover ⟨[⟨some 1, some "a.png", some "B", none, "", 1, true, "h"⟩,
          ⟨some 2, some "b.png", some "B", none, "", 0, true, "g"⟩], 3, []⟩).rows.filter
            (fun r => r.isCover) = [m]
      ∧ m ∈ (enforceSingleCover ⟨[⟨some 1, some "a.png", some "B", none, "", 1, true, "h"⟩,
          ⟨some 2, some "b.png", some "B", none, "", 0, true, "g"⟩], 3, []⟩).rows
      ∧ (∀ r ∈ [⟨some 1, some "a.png", some "B", none, "", 1, true, "h"⟩,
          (⟨some 2, some "b.png", some "B", none, "", 0, true, "g"⟩ : ImgRow)],
            r.isCover = false →
              r ∈ (enforceSingleCover ⟨[⟨some 1, some "a.png", some "B", none, "", 1, true, "h"⟩,
                ⟨some 2, some "b.png", some "B", none, "", 0, true, "g"⟩], 3, []⟩).rows) :=
  ⟨by decide,
    (c10_enforce_first_cover ⟨[⟨some 1, some "a.png", some "B", none, "", 1, true, "h"⟩,
        ⟨some 2, some "b.png", some "B", none, "", 0, true, "g"⟩], 3, []⟩
      (by decide)).2 (by decide)⟩

/-- Database well-formedness of a gallery state: child primary keys are
pairwise distinct and below the next value of the key sequence. -/
def WFrows (rows : List ImgRow) (nid : Nat) : Prop :=
  (rows.map rowId).Nodup ∧ ∀ r ∈ rows, rowId r < nid

/-- Well-formedness of a gallery state. -/
def WF (st : GalleryState) : Prop := WFrows st.rows st.nextId

/-- The model save assigns the fresh primary key only to unsaved rows. -/
theorem saveImage_pk (env : Env) (db : Option ImgRow) (r : ImgRow) (npk : Nat) :
    ((saveImage env db r npk).1).pk = some (r.pk.getD npk) := by
  simp only [saveImage]
  split
  · split <;> rfl
  · rfl

theorem getD_getD (o : Option Nat) : (some (o.getD (o.getD 0))).getD 0 = o.getD 0 := by
  cases o <;> rfl

/-- The image serializer update never changes the row id. -/
theorem rowId_serializerImageUpdate (env : Env) (persisted : ImgRow)
    (p : ImgOpPayload) :
    rowId (serializerImageUpdate env persisted p) = rowId persisted := by
  obtain ⟨hf1, _, _, _, _⟩ := applyScalarFields_frame persisted p
  have key : ∀ (inst : ImgRow), inst.pk = persisted.pk →
      rowId ((saveImage env (some persisted) inst (inst.pk.getD 0)).1)
        = rowId persisted := by
    intro inst hpk
    rw [rowId, saveImage_pk, hpk, getD_getD]
    rfl
  have himg : ∀ (inst : ImgRow) (o : Option (String × String × String)),
      (applyImagePayload inst o).pk = inst.pk := by
    intro inst o
    cases o with
    | none => rfl
    | some trip =>
      obtain ⟨fname, hv, data⟩ := trip
      rfl
  unfold serializerImageUpdate
  cases htr : truthyStr p.image with
  | none => exact key _ hf1
  | some s => exact key _ ((himg _ _).trans hf1)

/-- Mapping an id-preserving row transformation keeps well-formedness. -/
theorem wfrows_map (rows : List ImgRow) (nid : Nat) (g : ImgRow → ImgRow)
    (hg : ∀ r, rowId (g r) = rowId r) (h : WFrows rows nid) :
    WFrows (rows.map g) nid := by
  constructor
  · have heq : (rows.map g).map rowId = rows.map rowId := by
      rw [List.map_map]
      exact List.map_congr_left (fun a _ => hg a)
    rw [heq]
    exact h.1
  · intro r hr
    obtain ⟨r0, hr0, hre⟩ := List.mem_map.mp hr
    rw [← hre, hg r0]
    exact h.2 r0 hr0

theorem wf_removeImages (st : GalleryState) (ids : List Nat) (h : WF st) :
    WF (removeImages st ids) := by
  unfold removeImages
  split
  · exact h
  · refine ⟨?_, ?_⟩
    · exact h.1.sublist ((List.filter_sublist st.rows).map rowId)
    · intro r hr
      exact h.2 r (List.mem_of_mem_filter hr)

theorem wf_clearCovers (st : GalleryState) (h : WF st) : WF (clearCovers st) := by
  refine wfrows_map st.rows st.nextId _ ?_ h
  intro r
  by_cases hc : r.isCover <;> simp [hc, rowId]

theorem wf_createImage (env : Env) (st : GalleryState) (fname hv data : String)
    (op : ImgOpPayload) (h : WF st) : WF (createImage env st fname hv data op) := by
  unfold createImage
  have hpk : rowId ((saveImage env none
      ⟨none, some fname, some data, none, op.caption.getD "", op.order.getD 0,
        op.is_cover.getD false, hv⟩ st.nextId).1) = st.nextId := by
    rw [rowId, saveImage_pk]
    rfl
  have hnotmem : st.nextId ∉ st.rows.map rowId := by
    intro hmem
    obtain ⟨r0, hr0, hre⟩ := List.mem_map.mp hmem
    exact absurd hre (Nat.ne_of_lt (h.2 r0 hr0))
  refine ⟨?_, ?_⟩
  · rw [List.map_append, List.map_cons, List.map_nil, hpk]
    rw [List.nodup_append]
    exact ⟨h.1, List.nodup_singleton _, by simpa using hnotmem⟩
  · intro r hr
    rcases List.mem_append.mp hr with hr0 | hr1
    · exact Nat.lt_succ_of_lt (h.2 r hr0)
    · rw [List.mem_singleton.mp hr1, hpk]
      exact Nat.lt_succ_self _

theorem wf_insertDecoded (env : Env) (st : GalleryState) (op : ImgOpPayload)
    (o : Option (String × String × String)) (h : WF st) :
    WF (insertDecoded env st op o) := by
  cases o with
  | none => exact h
  | some trip =>
    obtain ⟨fname, hv, data⟩ := trip
    exact wf_createImage env st fname hv data op h

theorem wf_createOp (env : Env) (st : GalleryState) (op : ImgOpPayload)
    (h : WF st) : WF (createOp env st op) := by
  unfold createOp
  cases htr : truthyStr op.image with
  | none => exact h
  | some s => exact wf_insertDecoded env st op _ h

theorem wf_applyOp (env : Env) (st : GalleryState) (op : ImgOpPayload)
    (h : WF st) : WF (applyOp env st op) := by
  unfold applyOp
  cases hid : truthyNat op.id with
  | none => exact wf_createOp env st op h
  | some i =>
    show WF (updateFound env st op i (st.rows.find? (fun r => rowId r == i)))
    cases hf : st.rows.find? (fun r => rowId r == i) with
    | none => exact h
    | some row =>
      have hp := @List.find?_some ImgRow (fun r => rowId r == i) row st.rows hf
      have hrow : rowId row = i := eq_of_beq hp
      show WFrows (st.rows.map (fun r =>
        if rowId r == i then serializerImageUpdate env row op else r)) st.nextId
      refine wfrows_map st.rows st.nextId _ ?_ h
      intro r
      by_cases hri : (rowId r == i) = true
      · simp only [hri, if_true]
        rw [rowId_serializerImageUpdate, hrow]
        exact (eq_of_beq hri).symm
      · simp only [hri]
        rfl

theorem wf_foldl_applyOp (env : Env) (ops : List ImgOpPayload) (st : GalleryState)
    (h : WF st) : WF (ops.foldl (applyOp env) st) := by
  induction ops generalizing st with
  | nil => exact h
  | cons op t ih => exact ih (applyOp env st op) (wf_applyOp env st op h)

theorem wf_foldl_createOp (env : Env) (ops : List ImgOpPayload) (st : GalleryState)
    (h : WF st) : WF (ops.foldl (createOp env) st) := by
  induction ops generalizing st with
  | nil => exact h
  | cons op t ih => exact ih (createOp env st op) (wf_createOp env st op h)

/-- C1: for every gallery parent, after any reconciliation performed by the
serializer's create or update — any removal list and any sequence of
gallery operations, starting from a well-formed persisted gallery — at most
one child has `is_cover = true`. -/
theorem c1_single_cover :
    (∀ (env : Env) (st : GalleryState) (ids : List Nat) (ops : List ImgOpPayload),
        WF st → countCovers (galleryUpdateCore env st ids ops).rows ≤ 1)
  ∧ (∀ (env : Env) (ops : List ImgOpPayload),
        countCovers (galleryCreateCore env ops).rows ≤ 1) := by
  constructor
  · intro env st ids ops h
    unfold galleryUpdateCore
    have h1 := wf_removeImages st ids h
    have h2 : WF (if ops.any (fun o => o.is_cover.getD false)
        then clearCovers (removeImages st ids) else removeImages st ids) := by
      split
      · exact wf_clearCovers _ h1
      · exact h1
    have h3 := wf_foldl_applyOp env ops _ h2
    exact enforce_le_one _ h3.1
  · intro env ops
    unfold galleryCreateCore
    have h0 : WF ⟨[], 1, []⟩ := ⟨List.nodup_nil, by simp⟩
    have h1 := wf_foldl_createOp env ops _ h0
    exact enforce_le_one _ h1.1

/-- Witness for C1 at a concrete instance: an update that deletes child 1
and submits two cover-claiming operations (an update of child 2 and an
insert) still ends with at most one cover. -/
theorem c1_single_cover_witness :
    countCovers (galleryUpdateCore envDemo
        ⟨[⟨some 1, some "a.png", some "B", some "low/a.png", "", 0, true, "h"⟩,
          ⟨some 2, some "b.png", some "B", some "low/b.png", "", 1, false, "g"⟩], 3, []⟩
        [1]
        [⟨some 2, none, none, none, some true⟩,
          ⟨none, some "data:image/png;base64,QUJD", none, some 5, some true⟩]).rows ≤ 1 :=
  c1_single_cover.1 envDemo _ [1] _ ⟨by decide, by decide⟩

/-- C8, counterexample: a parent update whose `images` list contains a
new-image operation (no id) with the malformed payload `"hello"` is NOT
rejected: the reconciler returns success with the gallery state — rows and
stored assets — exactly as before, while the claim says the operation is
rejected synchronously with a client validation error. -/
theorem c8_malformed_counterexample :
    galleryUpdate envDemo
        ⟨[⟨some 1, some "a.png", some "B", some "low/a.png", "", 0, true, "h"⟩], 2,
          ["a.png", "low/a.png"]⟩
        [] [⟨none, some "hello", none, none, none⟩]
      = .ok ⟨[⟨some 1, some "a.png", some "B", some "low/a.png", "", 0, true, "h"⟩], 2,
          ["a.png", "low/a.png"]⟩ := rfl

/-- C8, amended: a new-image operation (no truthy id) whose payload is not
a decodable base64 data-URI is silently skipped by both reconciler paths:
applying it leaves the gallery state — rows, key sequence and stored
assets — unchanged (no row created, no asset stored), and the reconciler
never raises a validation error (every update returns success). -/
theorem c8_malformed_skip (env : Env) (st : GalleryState) (op : ImgOpPayload)
    (hid : truthyNat op.id = none)
    (hmal : ∀ s, truthyStr op.image = some s → getImageFileAndHash env s = none) :
    applyOp env st op = st
  ∧ createOp env st op = st
  ∧ (∀ (env' : Env) (st' : GalleryState) (ids : List Nat) (ops : List ImgOpPayload),
      ∃ res, galleryUpdate env' st' ids ops = .ok res) := by
  have hco : createOp env st op = st := by
    unfold createOp
    cases hs : truthyStr op.image with
    | none => rfl
    | some s =>
      simp only [hmal s hs]
      rfl
  refine ⟨?_, hco, fun env' st' ids ops => ⟨galleryUpdateCore env' st' ids ops, rfl⟩⟩
  unfold applyOp
  rw [hid]
  exact hco

/-- Witness for the amended C8 at a concrete instance: the malformed
payload `"hello"` leaves a concrete gallery state untouched. -/
theorem c8_malformed_skip_witness :
    applyOp envDemo
        ⟨[⟨some 1, some "a.png", some "B", some "low/a.png", "", 0, true, "h"⟩], 2,
          ["a.png", "low/a.png"]⟩
        ⟨none, some "hello", none, none, none⟩
      = ⟨[⟨some 1, some "a.png", some "B", some "low/a.png", "", 0, true, "h"⟩], 2,
          ["a.png", "low/a.png"]⟩ :=
  (c8_malformed_skip envDemo _ _ (by decide)
    (fun s hs => by
      simp [truthyStr] at hs
      rw [← hs]
      decide)).1

set_option maxRecDepth 8000 in
/-- C5, counterexample: for a source image of width 480 and height 3 the
resize step produces height `int(3 * (240 / 480.0)) = int(1.5) = 1` (every
intermediate value is exactly representable in binary64), while the
claim's formula `max(1, round(3 × 240 / 480)) = max(1, 2) = 2` disagrees —
the code truncates, it does not round. -/
theorem c5_resize_counterexample :
    (lowVariantDims 480 3).2 = 1
      ∧ (max 1 (round ((3 * 240 : ℚ) / 480)).toNat) = 2 := by
  constructor
  · decide
  · norm_num [round_eq]
    rfl

set_option maxRecDepth 8000 in
/-- C5, amended: if `w > 240` the variant is resized to width 240 and
height `max(1, int(h × (240 / w)))` evaluated in IEEE binary64 arithmetic
(so the height is at least 1 but is neither `round` — at 480×3 the code
gives 1 where rounding gives 2 — nor always the exact floor of
`h × 240 / w` — at 298×149 the binary64 product falls just below the exact
integer 120 and truncates to 119); if `w ≤ 240` the original dimensions
are kept (no upscaling); the resulting width is always `min w 240`, also
through the full transform `lowVariantImage`. -/
theorem c5_resize_amended (w h : Nat) :
    ((lowVariantDims w h).1 = min w 240)
  ∧ (240 < w →
      lowVariantDims w h = (240, max 1 (pyResizeHeight w h))
        ∧ 1 ≤ (lowVariantDims w h).2)
  ∧ (w ≤ 240 → lowVariantDims w h = (w, h))
  ∧ (∀ im : PILImage, im.width = w → (lowVariantImage im).width = min w 240)
  ∧ (lowVariantDims 298 149).2 = 119
  ∧ max 1 ((149 * 240) / 298) = 120
  ∧ (lowVariantDims 1000 500).2 = 120 := by
  refine ⟨?_, ?_, ?_, ?_, by decide, by decide, by decide⟩
  · by_cases hw : w > 240
    · simp [lowVariantDims, hw]; omega
    · simp [lowVariantDims, hw]; omega
  · intro hw
    refine ⟨by simp [lowVariantDims, hw], ?_⟩
    simp only [lowVariantDims, if_pos hw]
    exact le_max_left 1 _
  · intro hw
    have : ¬ (w > 240) := by omega
    simp [lowVariantDims, this]
  · intro im him
    subst him
    by_cases hm : im.mode ≠ "RGB" ∧ im.mode ≠ "L" <;>
      by_cases hw : im.width > 240 <;>
        simp [lowVariantImage, lowVariantDims, hm, hw] <;> omega

/-- Witness for the amended C5 at a concrete instance: a 1000×500 source
becomes 240 wide with the binary64-computed height, which is at least 1. -/
theorem c5_resize_amended_witness :
    lowVariantDims 1000 500 = (240, max 1 (pyResizeHeight 1000 500))
      ∧ 1 ≤ (lowVariantDims 1000 500).2 :=
  (c5_resize_amended 1000 500).2.1 (by norm_num)

/-- C2, counterexample: with existing project ids `{1, 2, 3}`, the request
`{"order": [3, 1]}` (missing id 2) is NOT rejected: the endpoint accepts it,
sets project 3 to order 0 and project 1 to order 1, and leaves project 2
untouched — the claim says this request is rejected with a validation error
and no order changes committed. -/
theorem c2_reorder_counterexample :
    reorder [⟨1, 0⟩, ⟨2, 1⟩, ⟨3, 2⟩] (.list [3, 1])
      = .ok [⟨1, 1⟩, ⟨2, 1⟩, ⟨3, 0⟩] := rfl

/-- C2, amended: the request is rejected iff the body is not a list or some
submitted id does not belong to an existing project (a submitted proper
subset of the existing ids is accepted); on rejection no order changes; on
acceptance every project whose id occurs in the list gets the (last)
position index of its id as new `order`, and the other projects keep
theirs.  The spec's accepted scenario `[3, 1, 2]` holds. -/
theorem c2_reorder_amended (table : List ProjRow) (l : List Nat) :
    ((∃ i ∈ l, i ∉ table.map (fun p => p.id)) →
       reorder table (.list l) = .error .orderIdMismatch)
  ∧ ((∀ i ∈ l, i ∈ table.map (fun p => p.id)) →
       reorder table (.list l) = .ok (table.map (fun p =>
         match lastIdxOf l p.id with
         | some k => { p with order := k }
         | none => p)))
  ∧ reorder table .notList = .error .orderNotAList
  ∧ reorder [⟨1, 0⟩, ⟨2, 1⟩, ⟨3, 2⟩] (.list [3, 1, 2])
      = .ok [⟨1, 1⟩, ⟨2, 2⟩, ⟨3, 0⟩] := by
  refine ⟨?_, ?_, rfl, rfl⟩
  · rintro ⟨i, hi, hni⟩
    have hne : ¬ (setEqNat l
        ((table.filter (fun p => l.contains p.id)).map (fun p => p.id)) = true) := by
      rw [setEq_filter_iff]; push_neg; exact ⟨i, hi, hni⟩
    simp only [reorder]
    rw [if_neg hne]
  · intro h
    have heq : setEqNat l
        ((table.filter (fun p => l.contains p.id)).map (fun p => p.id)) = true :=
      (setEq_filter_iff table l).2 h
    simp only [reorder]
    rw [if_pos heq]

/-- Witness for the amended C2 at a concrete instance: a submitted id that
matches no existing project is rejected. -/
theorem c2_reorder_amended_witness :
    reorder [⟨1, 0⟩] (.list [5]) = .error .orderIdMismatch :=
  (c2_reorder_amended [⟨1, 0⟩] [5]).1 ⟨5, by decide, by decide⟩

/-- Witness for C7 at a concrete instance: looking up `"en"` after merging
`{"fr": "y"}` into `{"en": "a"}` follows the merge contract. -/
theorem c7_localized_merge_witness :
    dictGet (entriesOf (mergeDicts (.dict [("en", "a")]) (.dict [("fr", "y")]))) "en"
      = (dictGet [("fr", "y")] "en").or (dictGet [("en", "a")] "en") :=
  c7_localized_merge.1 String [("en", "a")] [("fr", "y")] "en" (by decide)

/-- C6: title resolution on a Project follows the spec's precedence
(requested-language override if present and non-empty; else the scalar title
tagged with the source language when the requested language equals the
source language or the scalar is non-empty; else the first override entry
tagged with its language; else an empty result), and the three concrete
scenarios from the spec hold: with source language `"es"`, title `"Hola"`
and overrides `{"en": "Hello"}`, requesting `"en"` gives
`("Hello", "en")`, requesting `"es"` gives `("Hola", "es")`, and requesting
`"fr"` gives `("Hola", "es")`. -/
theorem c6_title_resolution :
    (∀ (lang : Option String) (title csl : String) (i18n : List (String × String)),
        getTitleResolved lang title csl i18n = titleResolvedSpec lang title csl i18n)
  ∧ getTitleResolved (some "en") "Hola" "es" [("en", "Hello")]
      = (some "Hello", some "en")
  ∧ getTitleResolved (some "es") "Hola" "es" [("en", "Hello")]
      = (some "Hola", some "es")
  ∧ getTitleResolved (some "fr") "Hola" "es" [("en", "Hello")]
      = (some "Hola", some "es") := by
  refine ⟨?_, by decide, by decide, by decide⟩
  intro lang title csl i18n
  unfold getTitleResolved titleResolvedSpec
  cases overrideLookup i18n lang with
  | some p => rfl
  | none =>
    by_cases h1 : lang = some csl
    · simp [h1]
    · by_cases h2 : title = "" <;> simp [h1, h2]

end Portfolio
